import Mathlib

/-!
# Verification of the prayer-counter core (src/src/App.tsx)

Shallow embedding of the logic components of the counter application:

* the counter core (`increment`, `decrement`) with its floor clamp,
* the daily history ledger (an association list from calendar dates to
  `DayLog` records, modelling the JS object `History`),
* the ledger-upsert effect, `clearToday`, and the day-rollover check,
* the streak calculator `calcStreak`,
* the storage loaders (`loadNumber`, `loadHistory`, `loadSettings`),
* a timed event-loop semantics for the hold-to-repeat controller
  (`startHold` / `stopHold` with JS `setTimeout` / `setInterval`).

Calendar dates are modelled as integers (day indices): the source's
`YYYY-MM-DD` keys produced by `todayKeyForDate` are in bijection with
local calendar days, and `cursor.setDate(cursor.getDate() - 1)` is the
predecessor day, so date strings are abstracted to `Int` with `d - 1`
as "the previous day".  Tally values are `Int` (JS numbers; the app
only ever computes integers on this path).
-/

set_option autoImplicit false

namespace PrayerCounter

/-! ## Counter core (App.tsx lines 191-201)

`increment(step)` runs `setCount(c => Math.max(0, c + step))`;
`decrement(step)` runs `setCount(c => Math.max(0, c - step))`. -/

def increment (c : Int) (step : Int) : Int := max 0 (c + step)

def decrement (c : Int) (step : Int) : Int := max 0 (c - step)

/-- A user operation on the tally, with its step. -/
inductive Op where
  | inc (step : Int)
  | dec (step : Int)
deriving DecidableEq

def applyOp (c : Int) : Op → Int
  | .inc s => increment c s
  | .dec s => decrement c s

/-- Apply a sequence of increment/decrement operations to a starting tally. -/
def applyOps (c : Int) (ops : List Op) : Int := ops.foldl applyOp c

/-! ## Daily history ledger (src/src/types.ts, App.tsx)

`History = Record<string, DayLog>` with `DayLog = { date, total }`.
The JS object is modelled as an association list keyed by the date. -/

structure DayLog where
  date : Int
  total : Int
deriving DecidableEq

abbrev History := List (Int × DayLog)

/-- Property access `h[key]` on the history object. -/
def lookupLog : History → Int → Option DayLog
  | [], _ => none
  | e :: rest, d => if e.1 = d then some e.2 else lookupLog rest d

def hasKey : History → Int → Bool
  | [], _ => false
  | e :: rest, d => e.1 = d || hasKey rest d

/-- The JS spread update `{ ...h, [d]: v }`: replaces the record at an
existing key in place, otherwise appends a new entry. -/
def setKey (h : History) (d : Int) (v : DayLog) : History :=
  if hasKey h d then h.map (fun e => if e.1 = d then (d, v) else e)
  else h ++ [(d, v)]

/-- The JS rest-destructuring delete `const { [d]: _, ...rest } = h`. -/
def removeKey : History → Int → History
  | [], _ => []
  | e :: rest, d => if e.1 = d then removeKey rest d else e :: removeKey rest d

/-! ## The ledger-upsert effect (App.tsx lines 203-211)

```
if (count < 0) return
const key = todayKey()
setHistory(h => {
  const prev = h[key]?.total ?? -1
  if (prev === count) return h
  return { ...h, [key]: { date: key, total: count } }
})
``` -/

def historyUpsert (today : Int) (count : Int) (h : History) : History :=
  if count < 0 then h
  else
    let prev := ((lookupLog h today).map DayLog.total).getD (-1)
    if prev = count then h
    else setKey h today ⟨today, count⟩

/-! ## clearToday (App.tsx lines 217-222) and the day-rollover check
(App.tsx lines 280-291).

`checkDayChange` runs `if (!history[key]) { setCount(0); setHistory(h =>
({ ...h, [key]: { date: key, total: 0 } })) }`; a present record object
is always truthy, so the guard is exactly "no record for today". -/

def checkDayChange (today : Int) (count : Int) (h : History) : Int × History :=
  match lookupLog h today with
  | none => (0, setKey h today ⟨today, 0⟩)
  | some _ => (count, h)

def clearToday (today : Int) (count : Int) (h : History) : Int × History :=
  match lookupLog h today with
  | none => (count, h)
  | some _ => (count, removeKey h today)

/-- `clearToday` followed by the day-change check: the rollover effect has
dependency `[history]`, so it re-runs as soon as `clearToday` commits its
ledger update. -/
def clearTodayAndCheck (today : Int) (count : Int) (h : History) : Int × History :=
  let s := clearToday today count h
  checkDayChange today s.1 s.2

/-! ## Basic ledger lemmas -/

theorem lookupLog_mapReplace_self (h : History) (d : Int) (v : DayLog)
    (hk : hasKey h d = true) :
    lookupLog (h.map (fun e => if e.1 = d then (d, v) else e)) d = some v := by
  induction h with
  | nil => simp [hasKey] at hk
  | cons e rest ih =>
    by_cases he : e.1 = d
    · simp [lookupLog, he]
    · simp [hasKey, he] at hk
      simp [lookupLog, he, ih hk]

theorem lookupLog_mapReplace_other (h : History) (d d' : Int) (v : DayLog)
    (hne : d' ≠ d) :
    lookupLog (h.map (fun e => if e.1 = d then (d, v) else e)) d'
      = lookupLog h d' := by
  induction h with
  | nil => simp [lookupLog]
  | cons e rest ih =>
    by_cases he : e.1 = d
    · have hd : d ≠ d' := Ne.symm hne
      have hed : ¬ e.1 = d' := by rw [he]; exact hd
      simp [lookupLog, he, hd, hed, ih]
    · by_cases he' : e.1 = d'
      · simp [lookupLog, he, he', hne]
      · simp [lookupLog, he, he', ih]

theorem lookupLog_append_single_other (h : History) (d d' : Int) (v : DayLog)
    (hne : d' ≠ d) :
    lookupLog (h ++ [(d, v)]) d' = lookupLog h d' := by
  induction h with
  | nil => simp [lookupLog, Ne.symm hne]
  | cons e rest ih =>
    by_cases he' : e.1 = d'
    · simp [lookupLog, he']
    · simp [lookupLog, he', ih]

theorem lookupLog_append_single_self (h : History) (d : Int) (v : DayLog)
    (hk : hasKey h d = false) :
    lookupLog (h ++ [(d, v)]) d = some v := by
  induction h with
  | nil => simp [lookupLog]
  | cons e rest ih =>
    simp [hasKey] at hk
    simp [lookupLog, hk.1, ih hk.2]

theorem lookupLog_setKey_self (h : History) (d : Int) (v : DayLog) :
    lookupLog (setKey h d v) d = some v := by
  unfold setKey
  split
  case isTrue hk => exact lookupLog_mapReplace_self h d v hk
  case isFalse hk =>
    exact lookupLog_append_single_self h d v (Bool.eq_false_iff.mpr hk)

theorem lookupLog_setKey_other (h : History) (d d' : Int) (v : DayLog)
    (hne : d' ≠ d) : lookupLog (setKey h d v) d' = lookupLog h d' := by
  unfold setKey
  split
  · exact lookupLog_mapReplace_other h d d' v hne
  · exact lookupLog_append_single_other h d d' v hne

theorem lookupLog_removeKey_self (h : History) (d : Int) :
    lookupLog (removeKey h d) d = none := by
  induction h with
  | nil => simp [removeKey, lookupLog]
  | cons e rest ih =>
    by_cases he : e.1 = d
    · simp [removeKey, he, ih]
    · simp [removeKey, he, lookupLog, ih]

theorem lookupLog_removeKey_other (h : History) (d d' : Int) (hne : d' ≠ d) :
    lookupLog (removeKey h d) d' = lookupLog h d' := by
  induction h with
  | nil => simp [removeKey]
  | cons e rest ih =>
    by_cases he : e.1 = d
    · have hed : ¬ e.1 = d' := by rw [he]; exact Ne.symm hne
      have hdd : ¬ d = d' := Ne.symm hne
      simp [removeKey, he, lookupLog, hed, hdd, ih]
    · by_cases he' : e.1 = d'
      · simp [removeKey, he, lookupLog, he', hne]
      · simp [removeKey, he, lookupLog, he', ih]

/-! ## C1: floor-clamped counter -/

theorem applyOps_nonneg (T : Int) (hT : 0 ≤ T) (ops : List Op) :
    0 ≤ applyOps T ops := by
  induction ops generalizing T with
  | nil => simpa [applyOps] using hT
  | cons o rest ih =>
    have h0 : 0 ≤ applyOp T o := by
      cases o <;> simp [applyOp, increment, decrement, le_max_iff]
    simpa [applyOps, List.foldl_cons] using ih (applyOp T o) h0

theorem applyOps_dec_replicate (T : Int) (N : Nat) (hT : 0 ≤ T) :
    applyOps T (List.replicate N (Op.dec 1)) = max 0 (T - N) := by
  induction N generalizing T with
  | zero => simp [applyOps]; omega
  | succ n ih =>
    have : applyOps T (List.replicate (n + 1) (Op.dec 1))
        = applyOps (max 0 (T - 1)) (List.replicate n (Op.dec 1)) := by
      simp [applyOps, List.replicate_succ, applyOp, decrement]
    rw [this, ih (max 0 (T - 1)) (le_max_left 0 (T - 1))]
    push_cast
    omega

/-- **C1.** For every starting tally `T ≥ 0` and every sequence of
increment/decrement operations the tally stays `≥ 0` (every reachable
state is `applyOps T ops` for a prefix `ops`); `N` step-1 decrements
from `T` yield `max 0 (T - N)`; and each single `increment step` /
`decrement step` sets the tally to `max 0 (tally + step)` /
`max 0 (tally - step)`. -/
theorem tally_clamped (T : Int) (hT : 0 ≤ T) :
    (∀ ops : List Op, 0 ≤ applyOps T ops) ∧
    (∀ N : Nat, applyOps T (List.replicate N (Op.dec 1)) = max 0 (T - N)) ∧
    (∀ c step : Int, increment c step = max 0 (c + step) ∧
      decrement c step = max 0 (c - step)) :=
  ⟨fun ops => applyOps_nonneg T hT ops,
   fun N => applyOps_dec_replicate T N hT,
   fun _ _ => ⟨rfl, rfl⟩⟩

/-- Witness for C1 at `T = 5`: three step-1 decrements give `2`,
seven give `0`. -/
theorem tally_clamped_witness :
    applyOps 5 (List.replicate 3 (Op.dec 1)) = 2 ∧
    applyOps 5 (List.replicate 7 (Op.dec 1)) = 0 := by
  have h := tally_clamped 5 (by decide)
  exact ⟨by rw [h.2.1 3]; decide, by rw [h.2.1 7]; decide⟩

/-! ## C6: idempotent ledger upsert -/

/-- **C6.** The ledger upsert: when the existing record for `today`
already carries the new total, the updater returns the very ledger it
was given (`historyUpsert today count h = h`, the no-write / no-re-render
case); otherwise the record at `today` becomes `{date := today, total :=
count}` and every other date's record is untouched.  The `0 ≤ count`
hypothesis mirrors the `if (count < 0) return` guard under which the
effect runs. -/
theorem historyUpsert_idempotent (today count : Int) (h : History)
    (hc : 0 ≤ count) :
    ((lookupLog h today).map DayLog.total = some count →
      historyUpsert today count h = h) ∧
    ((lookupLog h today).map DayLog.total ≠ some count →
      lookupLog (historyUpsert today count h) today = some ⟨today, count⟩ ∧
      ∀ d : Int, d ≠ today →
        lookupLog (historyUpsert today count h) d = lookupLog h d) ∧
    historyUpsert today count (historyUpsert today count h)
      = historyUpsert today count h := by
  have hneg : ¬ count < 0 := not_lt.mpr hc
  constructor
  · intro hsame
    simp [historyUpsert, hneg, hsame]
  constructor
  · intro hdiff
    have hprev : ¬ ((lookupLog h today).map DayLog.total).getD (-1) = count := by
      cases hl : (lookupLog h today).map DayLog.total with
      | none => simp; omega
      | some t =>
        rw [hl] at hdiff
        simpa using fun ht => hdiff (by rw [ht])
    refine ⟨?_, ?_⟩
    · simp [historyUpsert, hneg, hprev, lookupLog_setKey_self]
    · intro d hd
      simp [historyUpsert, hneg, hprev, lookupLog_setKey_other h today d _ hd]
  · by_cases hprev : ((lookupLog h today).map DayLog.total).getD (-1) = count
    · simp [historyUpsert, hneg, hprev]
    · have h1 : historyUpsert today count h = setKey h today ⟨today, count⟩ := by
        simp [historyUpsert, hneg, hprev]
      rw [h1]
      have h2 : lookupLog (setKey h today ⟨today, count⟩) today
          = some ⟨today, count⟩ := lookupLog_setKey_self h today _
      simp [historyUpsert, hneg, h2]

/-- Witness for C6 at `today = 0`, `count = 4`, ledger `[(0, ⟨0, 4⟩)]`
(same total: no-op) and ledger `[(1, ⟨1, 2⟩)]` (absent: created, other
date untouched). -/
theorem historyUpsert_idempotent_witness :
    historyUpsert 0 4 [(0, ⟨0, 4⟩)] = [(0, ⟨0, 4⟩)] ∧
    lookupLog (historyUpsert 0 4 [(1, ⟨1, 2⟩)]) 0 = some ⟨0, 4⟩ ∧
    lookupLog (historyUpsert 0 4 [(1, ⟨1, 2⟩)]) 1 = some ⟨1, 2⟩ := by
  refine ⟨(historyUpsert_idempotent 0 4 [(0, ⟨0, 4⟩)] (by decide)).1 (by decide),
    ((historyUpsert_idempotent 0 4 [(1, ⟨1, 2⟩)] (by decide)).2.1 (by decide)).1,
    ?_⟩
  exact (((historyUpsert_idempotent 0 4 [(1, ⟨1, 2⟩)] (by decide)).2.1
    (by decide)).2 1 (by decide))

/-! ## C5: day-rollover check -/

/-- **C5.** Running the day-rollover check with no record for today
resets the tally to `0` and inserts `{date := today, total := 0}`,
leaving other dates alone; running it when a record for today exists
changes neither the tally nor the ledger. -/
theorem checkDayChange_spec (today count : Int) (h : History) :
    (lookupLog h today = none →
      (checkDayChange today count h).1 = 0 ∧
      lookupLog (checkDayChange today count h).2 today = some ⟨today, 0⟩ ∧
      ∀ d : Int, d ≠ today →
        lookupLog (checkDayChange today count h).2 d = lookupLog h d) ∧
    ((lookupLog h today).isSome →
      checkDayChange today count h = (count, h)) := by
  constructor
  · intro hnone
    refine ⟨?_, ?_, ?_⟩
    · simp [checkDayChange, hnone]
    · simp [checkDayChange, hnone, lookupLog_setKey_self]
    · intro d hd
      simp [checkDayChange, hnone, lookupLog_setKey_other h today d _ hd]
  · intro hsome
    cases hl : lookupLog h today with
    | none => rw [hl] at hsome; simp at hsome
    | some r => simp [checkDayChange, hl]

/-- Witness for C5: rollover on the empty ledger with live tally `7`,
and no-op when today's record is present. -/
theorem checkDayChange_spec_witness :
    (checkDayChange 0 7 []).1 = 0 ∧
    lookupLog (checkDayChange 0 7 []).2 0 = some ⟨0, 0⟩ ∧
    checkDayChange 0 7 [(0, ⟨0, 3⟩)] = (7, [(0, ⟨0, 3⟩)]) := by
  refine ⟨((checkDayChange_spec 0 7 []).1 (by decide)).1,
    ((checkDayChange_spec 0 7 []).1 (by decide)).2.1,
    (checkDayChange_spec 0 7 [(0, ⟨0, 3⟩)]).2 (by decide)⟩

/-! ## C9: clearToday and the rollover effect it retriggers -/

/-- **C9 counterexample.** The claim states that after `clearToday` the
ledger has no record for today and the tally is unchanged.  In the app,
the rollover check (`useEffect` with dependency `[history]`, App.tsx
lines 280-291) re-runs on the ledger change `clearToday` makes, sees no
record for today, zeroes the tally and re-inserts `{today, 0}`.  At
`today = 0`, tally `5`, ledger `[(0, ⟨0, 5⟩)]` the settled state has
tally `0` (not `5`) and a record for today. -/
theorem clearToday_claim_counterexample :
    ¬ ((clearTodayAndCheck 0 5 [(0, ⟨0, 5⟩)]).1 = 5 ∧
       lookupLog (clearTodayAndCheck 0 5 [(0, ⟨0, 5⟩)]).2 0 = none) := by
  decide

/-- **C9 amended.** The `clearToday` step itself removes only today's
record and leaves the tally: after it, today has no record, every other
date is as before, and the tally is unchanged.  But the day-rollover
check re-runs on that ledger change, so the settled composite state has
tally `0` and record `{date := today, total := 0}` for today; other
dates' records are unchanged throughout. -/
theorem clearToday_then_rollover (today count : Int) (h : History) :
    ((clearToday today count h).1 = count ∧
      lookupLog (clearToday today count h).2 today = none ∧
      ∀ d : Int, d ≠ today →
        lookupLog (clearToday today count h).2 d = lookupLog h d) ∧
    ((clearTodayAndCheck today count h).1 = 0 ∧
      lookupLog (clearTodayAndCheck today count h).2 today = some ⟨today, 0⟩ ∧
      ∀ d : Int, d ≠ today →
        lookupLog (clearTodayAndCheck today count h).2 d = lookupLog h d) := by
  have hstep : (clearToday today count h).1 = count ∧
      lookupLog (clearToday today count h).2 today = none ∧
      ∀ d : Int, d ≠ today →
        lookupLog (clearToday today count h).2 d = lookupLog h d := by
    cases hl : lookupLog h today with
    | none =>
      refine ⟨by simp [clearToday, hl], by simp [clearToday, hl, hl], ?_⟩
      intro d hd; simp [clearToday, hl]
    | some r =>
      refine ⟨by simp [clearToday, hl], by simp [clearToday, hl,
        lookupLog_removeKey_self], ?_⟩
      intro d hd
      simp [clearToday, hl, lookupLog_removeKey_other h today d hd]
  refine ⟨hstep, ?_, ?_, ?_⟩
  · simp only [clearTodayAndCheck, checkDayChange, hstep.2.1]
  · simp only [clearTodayAndCheck, checkDayChange, hstep.2.1]
    exact lookupLog_setKey_self _ today _
  · intro d hd
    simp only [clearTodayAndCheck, checkDayChange, hstep.2.1]
    rw [lookupLog_setKey_other _ today d _ hd]
    exact hstep.2.2 d hd

/-- Witness for C9 (amended) at `today = 0`, tally `5`, ledger
`[(0, ⟨0, 5⟩), (1, ⟨1, 2⟩)]`. -/
theorem clearToday_then_rollover_witness :
    lookupLog (clearToday 0 5 [(0, ⟨0, 5⟩), (1, ⟨1, 2⟩)]).2 0 = none ∧
    (clearTodayAndCheck 0 5 [(0, ⟨0, 5⟩), (1, ⟨1, 2⟩)]).1 = 0 ∧
    lookupLog (clearTodayAndCheck 0 5 [(0, ⟨0, 5⟩), (1, ⟨1, 2⟩)]).2 1
      = some ⟨1, 2⟩ := by
  refine ⟨(clearToday_then_rollover 0 5 [(0, ⟨0, 5⟩), (1, ⟨1, 2⟩)]).1.2.1,
    (clearToday_then_rollover 0 5 [(0, ⟨0, 5⟩), (1, ⟨1, 2⟩)]).2.1, ?_⟩
  have := (clearToday_then_rollover 0 5 [(0, ⟨0, 5⟩), (1, ⟨1, 2⟩)]).2.2.2
    1 (by decide)
  rw [this]; decide

/-! ## Streak calculator (App.tsx lines 224-242)

```
function calcStreak(): number {
  const dates = Object.keys(history).sort()
  if (dates.length === 0) return 0
  const set = new Set(dates.filter(d => (history[d].total ?? 0) > 0))
  let streak = 0
  let cursor = new Date()
  const todayHas = set.has(todayKey())
  if (!todayHas) cursor.setDate(cursor.getDate() - 1)
  while (true) {
    const key = todayKeyForDate(cursor)
    if (set.has(key)) { streak++; cursor.setDate(cursor.getDate() - 1) }
    else break
  }
  return streak
}
```

`set.has d` is `qualifies h d` below.  The unbounded `while (true)` walk
is rendered with fuel; `h.length + 1` fuel always suffices because each
continuing iteration consumes a distinct qualifying date (proved in the
termination theorem). -/

def totalAt (h : History) (d : Int) : Int :=
  ((lookupLog h d).map DayLog.total).getD 0

/-- Membership in the set of qualifying dates:
`(history[d].total ?? 0) > 0`. -/
def qualifies (h : History) (d : Int) : Bool :=
  decide (0 < totalAt h d)

/-- The backward walk of the `while (true)` loop, fuelled. -/
def streakFrom (q : Int → Bool) : Nat → Int → Nat
  | 0, _ => 0
  | fuel + 1, s => if q s then streakFrom q fuel (s - 1) + 1 else 0

/-- The initial cursor: today if it qualifies, else yesterday. -/
def startCursor (h : History) (today : Int) : Int :=
  if qualifies h today then today else today - 1

def calcStreak (h : History) (today : Int) : Nat :=
  if h = [] then 0
  else streakFrom (qualifies h) (h.length + 1) (startCursor h today)

/-- The qualifying dates of the ledger (distinct keys with positive
recorded total). -/
def qualKeys (h : History) : List Int :=
  ((h.map Prod.fst).dedup).filter (fun d => qualifies h d)

theorem lookupLog_some_mem_keys (h : History) (d : Int) (r : DayLog)
    (hl : lookupLog h d = some r) : d ∈ h.map Prod.fst := by
  induction h with
  | nil => simp [lookupLog] at hl
  | cons e rest ih =>
    by_cases he : e.1 = d
    · simp [he.symm]
    · simp only [lookupLog, if_neg he] at hl
      simp [ih hl]

theorem qualifies_mem_qualKeys (h : History) (d : Int)
    (hq : qualifies h d = true) : d ∈ qualKeys h := by
  have hpos : 0 < totalAt h d := by simpa [qualifies] using hq
  cases hl : lookupLog h d with
  | none => simp [totalAt, hl] at hpos
  | some r =>
    refine List.mem_filter.mpr ⟨List.mem_dedup.mpr ?_, hq⟩
    exact lookupLog_some_mem_keys h d r hl

theorem streak_run_le (h : History) (s : Int) (n : Nat)
    (hq : ∀ k : Nat, k < n → qualifies h (s - k) = true) :
    n ≤ (qualKeys h).length := by
  have hinj : Function.Injective (fun k : Nat => s - (k : Int)) := by
    intro a b hab
    simp only at hab
    omega
  calc n = (Finset.range n).card := (Finset.card_range n).symm
    _ = ((Finset.range n).image (fun k : Nat => s - (k : Int))).card :=
        (Finset.card_image_of_injective _ hinj).symm
    _ ≤ (qualKeys h).toFinset.card := by
        refine Finset.card_le_card ?_
        intro x hx
        simp only [Finset.mem_image, Finset.mem_range] at hx
        obtain ⟨k, hk, rfl⟩ := hx
        exact List.mem_toFinset.mpr
          (qualifies_mem_qualKeys h _ (hq k hk))
    _ ≤ (qualKeys h).length := (qualKeys h).toFinset_card_le

theorem qualKeys_length_le (h : History) :
    (qualKeys h).length ≤ h.length := by
  calc (qualKeys h).length
      ≤ ((h.map Prod.fst).dedup).length := List.length_filter_le _ _
    _ ≤ (h.map Prod.fst).length := (List.dedup_sublist _).length_le
    _ = h.length := List.length_map _ _

theorem streakFrom_eq_break (q : Int → Bool) :
    ∀ (n fuel : Nat) (s : Int), n < fuel →
      (∀ k : Nat, k < n → q (s - k) = true) → q (s - n) = false →
      streakFrom q fuel s = n := by
  intro n
  induction n with
  | zero =>
    intro fuel s hf _ hb
    cases fuel with
    | zero => omega
    | succ f =>
      have : q s = false := by simpa using hb
      simp [streakFrom, this]
  | succ m ih =>
    intro fuel s hf hq hb
    cases fuel with
    | zero => omega
    | succ f =>
      have hqs : q s = true := by
        have := hq 0 (Nat.succ_pos m)
        simpa using this
      have h1 : ∀ k : Nat, k < m → q ((s - 1) - k) = true := by
        intro k hk
        have hk1 := hq (k + 1) (by omega)
        have harg : s - ((k + 1 : Nat) : Int) = (s - 1) - k := by
          push_cast; ring
        rwa [harg] at hk1
      have h2 : q ((s - 1) - m) = false := by
        have harg : s - ((m + 1 : Nat) : Int) = (s - 1) - m := by
          push_cast; ring
        rwa [harg] at hb
      have hrec := ih f (s - 1) (by omega) h1 h2
      simp [streakFrom, hqs, hrec]

/-- Master characterization of `calcStreak`: from the start cursor the
first `calcStreak` days all qualify, the next does not, the streak is
bounded by the number of qualifying dates, and any fuel beyond
`h.length + 1` computes the same value. -/
theorem streak_master (h : History) (today : Int) :
    (∀ k : Nat, k < calcStreak h today →
      qualifies h (startCursor h today - k) = true) ∧
    qualifies h (startCursor h today - calcStreak h today) = false ∧
    calcStreak h today ≤ (qualKeys h).length ∧
    ∀ fuel : Nat, h.length + 1 ≤ fuel →
      streakFrom (qualifies h) fuel (startCursor h today)
        = calcStreak h today := by
  have hex : ∃ n : Nat, qualifies h (startCursor h today - n) = false := by
    by_contra hc
    push_neg at hc
    have hall : ∀ n : Nat, qualifies h (startCursor h today - n) = true := by
      intro n
      cases hqn : qualifies h (startCursor h today - n) with
      | false => exact absurd hqn (hc n)
      | true => rfl
    have hle := streak_run_le h (startCursor h today)
      ((qualKeys h).length + 1) (fun k _ => hall k)
    omega
  have hbreak := Nat.find_spec hex
  have hmin : ∀ k : Nat, k < Nat.find hex →
      qualifies h (startCursor h today - k) = true := by
    intro k hk
    have hnot := Nat.find_min hex hk
    cases hqk : qualifies h (startCursor h today - k) with
    | false => exact absurd hqk hnot
    | true => rfl
  have hnle : Nat.find hex ≤ (qualKeys h).length :=
    streak_run_le h (startCursor h today) (Nat.find hex) hmin
  by_cases hemp : h = []
  · subst hemp
    have hq0 : ∀ d : Int, qualifies ([] : History) d = false := by
      intro d; simp [qualifies, totalAt, lookupLog]
    have hcs : calcStreak ([] : History) today = 0 := by simp [calcStreak]
    refine ⟨?_, ?_, ?_, ?_⟩
    · intro k hk; rw [hcs] at hk; omega
    · rw [hcs]; exact hq0 _
    · rw [hcs]; omega
    · intro fuel hfuel
      cases fuel with
      | zero => simp at hfuel
      | succ f => simp [streakFrom, hq0, hcs]
  · have hlen : Nat.find hex < h.length + 1 := by
      have := qualKeys_length_le h
      omega
    have hval : ∀ fuel : Nat, Nat.find hex < fuel →
        streakFrom (qualifies h) fuel (startCursor h today)
          = Nat.find hex := by
      intro fuel hfuel
      exact streakFrom_eq_break (qualifies h) (Nat.find hex) fuel
        (startCursor h today) hfuel hmin hbreak
    have hcs : calcStreak h today = Nat.find hex := by
      simp only [calcStreak, if_neg hemp]
      exact hval (h.length + 1) hlen
    refine ⟨?_, ?_, ?_, ?_⟩
    · intro k hk; rw [hcs] at hk; exact hmin k hk
    · rw [hcs]; exact hbreak
    · rw [hcs]; exact hnle
    · intro fuel hfuel
      rw [hcs]
      exact hval fuel (by omega)

/-- **C2.** The streak calculator returns the length of the maximal run
of consecutive qualifying days ending at the start cursor (today if it
qualifies, else yesterday): every day `startCursor - k` for
`k < calcStreak` qualifies and day `startCursor - calcStreak` does not.
The spec's concrete cases follow: empty ledger `0`; `{today: 5}` gives
`1`; `{today: 0, yesterday: 3}` gives `1`; `{today: 4, yesterday: 0,
two-days-ago: 7}` gives `1`. -/
theorem calcStreak_spec (h : History) (today : Int) :
    ((∀ k : Nat, k < calcStreak h today →
        qualifies h (startCursor h today - k) = true) ∧
      qualifies h (startCursor h today - calcStreak h today) = false) ∧
    calcStreak [] today = 0 ∧
    calcStreak [(today, ⟨today, 5⟩)] today = 1 ∧
    calcStreak [(today, ⟨today, 0⟩), (today - 1, ⟨today - 1, 3⟩)] today = 1 ∧
    calcStreak [(today, ⟨today, 4⟩), (today - 1, ⟨today - 1, 0⟩),
      (today - 2, ⟨today - 2, 7⟩)] today = 1 := by
  have hm := streak_master h today
  have h1 : today - 1 ≠ today := by omega
  have h2 : today ≠ today - 1 := by omega
  have h3 : today ≠ today - 1 - 1 := by omega
  have h4 : today - 1 ≠ today - 1 - 1 := by omega
  refine ⟨⟨hm.1, hm.2.1⟩, by simp [calcStreak], ?_, ?_, ?_⟩
  · simp [calcStreak, streakFrom, startCursor, qualifies, totalAt, lookupLog,
      h1, h2]
  · simp [calcStreak, streakFrom, startCursor, qualifies, totalAt, lookupLog,
      h1, h2, h3, h4]
  · simp [calcStreak, streakFrom, startCursor, qualifies, totalAt, lookupLog,
      h1, h2]

/-- Witness for C2, instantiating the run characterization on the
ledger `{0 ↦ 5, -1 ↦ 2}` at `today = 0` (streak 2: day `0 - 1`
qualifies, day `0 - 2` does not). -/
theorem calcStreak_spec_witness :
    calcStreak [((0 : Int), ⟨0, 5⟩), (-1, ⟨-1, 2⟩)] 0 = 2 ∧
    qualifies [((0 : Int), ⟨0, 5⟩), (-1, ⟨-1, 2⟩)]
      (startCursor [((0 : Int), ⟨0, 5⟩), (-1, ⟨-1, 2⟩)] 0 - 1) = true ∧
    qualifies [((0 : Int), ⟨0, 5⟩), (-1, ⟨-1, 2⟩)]
      (startCursor [((0 : Int), ⟨0, 5⟩), (-1, ⟨-1, 2⟩)] 0
        - calcStreak [((0 : Int), ⟨0, 5⟩), (-1, ⟨-1, 2⟩)] 0) = false :=
  ⟨by decide,
   (calcStreak_spec [((0 : Int), ⟨0, 5⟩), (-1, ⟨-1, 2⟩)] 0).1.1 1 (by decide),
   (calcStreak_spec [((0 : Int), ⟨0, 5⟩), (-1, ⟨-1, 2⟩)] 0).1.2⟩

/-- **C10.** The backward walk terminates on every finite ledger: its
value is already reached with `h.length + 1` fuel and is unchanged by
any larger fuel, and the streak — hence the number of continuing loop
iterations — is bounded by the number of qualifying dates in the ledger
(the loop runs `calcStreak + 1` iterations, the final one breaking). -/
theorem calcStreak_terminates (h : History) (today : Int) (fuel : Nat)
    (hfuel : h.length + 1 ≤ fuel) :
    streakFrom (qualifies h) fuel (startCursor h today)
      = calcStreak h today ∧
    calcStreak h today ≤ (qualKeys h).length :=
  ⟨(streak_master h today).2.2.2 fuel hfuel, (streak_master h today).2.2.1⟩

/-- Witness for C10 on the ledger `{0 ↦ 5}` at `today = 0` with fuel
`50`. -/
theorem calcStreak_terminates_witness :
    streakFrom (qualifies [((0 : Int), ⟨0, 5⟩)]) 50
        (startCursor [((0 : Int), ⟨0, 5⟩)] 0)
      = calcStreak [((0 : Int), ⟨0, 5⟩)] 0 ∧
    calcStreak [((0 : Int), ⟨0, 5⟩)] 0
      ≤ (qualKeys [((0 : Int), ⟨0, 5⟩)]).length :=
  calcStreak_terminates [((0 : Int), ⟨0, 5⟩)] 0 50 (by decide)

/-! ## Storage loaders (App.tsx lines 24-56)

The raw `localStorage` strings are abstracted by their parse outcome.

`loadNumber`:
```
const raw = localStorage.getItem(key)
const n = raw ? Number(raw) : fallback
return Number.isFinite(n) ? n : fallback
```
`RawNum` classifies the possible raws: a `null` item, an empty string
(falsy, so the `raw ? _ : fallback` branch yields the fallback), a
string whose `Number(...)` is `NaN` or `±Infinity` (not finite), and a
string whose `Number(...)` is a finite value `v` (integer-valued here;
the sign is unconstrained). -/

inductive RawNum where
  | missing
  | empty
  | nonNumeric
  | numeric (v : Int)
deriving DecidableEq

def loadNumber (raw : RawNum) (fallback : Int) : Int :=
  match raw with
  | .missing => fallback
  | .empty => fallback
  | .nonNumeric => fallback
  | .numeric v => v

/-! `loadHistory`:
```
try {
  const raw = localStorage.getItem(STORAGE_KEYS.HISTORY)
  if (!raw) return {}
  const obj = JSON.parse(raw) as History
  return obj || {}
} catch { return {} }
```
`StoredHistory` classifies the raw: missing/empty (falsy raw),
unparseable (`JSON.parse` throws, caught), parse result falsy
(`null`, `0`, `""`, `false` — the `obj || {}` branch), or a
parsed history object. -/

inductive StoredHistory where
  | missing
  | corrupt
  | parsedFalsy
  | parsed (h : History)

def loadHistory : StoredHistory → History
  | .missing => []
  | .corrupt => []
  | .parsedFalsy => []
  | .parsed h => h

/-! `loadSettings`:
```
try {
  const raw = localStorage.getItem(STORAGE_KEYS.SETTINGS)
  return raw ? { ...defaultSettings, ...(JSON.parse(raw) as Settings) }
             : defaultSettings
} catch { return defaultSettings }
```
A persisted blob is a partial record (old blobs may miss fields); the
object spread keeps a stored field when present and otherwise the
default. -/

structure Settings where
  vibrate : Bool
  vibrateMs : Int
  autoResetAfterLog : Bool
  hapticsOnDecrement : Bool
deriving DecidableEq

def defaultSettings : Settings :=
  { vibrate := true, vibrateMs := 10, autoResetAfterLog := true,
    hapticsOnDecrement := false }

structure PartialSettings where
  vibrate : Option Bool
  vibrateMs : Option Int
  autoResetAfterLog : Option Bool
  hapticsOnDecrement : Option Bool

/-- The object spread `{ ...d, ...p }` restricted to the settings
fields. -/
def mergeSettings (d : Settings) (p : PartialSettings) : Settings :=
  { vibrate := p.vibrate.getD d.vibrate,
    vibrateMs := p.vibrateMs.getD d.vibrateMs,
    autoResetAfterLog := p.autoResetAfterLog.getD d.autoResetAfterLog,
    hapticsOnDecrement := p.hapticsOnDecrement.getD d.hapticsOnDecrement }

inductive StoredSettings where
  | missing
  | corrupt
  | parsed (p : PartialSettings)

def loadSettings : StoredSettings → Settings
  | .missing => defaultSettings
  | .corrupt => defaultSettings
  | .parsed p => mergeSettings defaultSettings p

/-- **C7.** Loading is total (never throws — `loadHistory` and
`loadSettings` are total functions of the parse outcome) and yields the
documented fallbacks: the empty mapping for a missing, unparseable, or
falsy-parsing ledger; the built-in defaults for missing or unparseable
settings; and a field-by-field merge over the defaults for a parsed
settings blob — each missing field falls back to its default and each
present field is preserved. -/
theorem load_fallbacks :
    (loadHistory .missing = [] ∧ loadHistory .corrupt = [] ∧
      loadHistory .parsedFalsy = []) ∧
    (loadSettings .missing = defaultSettings ∧
      loadSettings .corrupt = defaultSettings) ∧
    (∀ p : PartialSettings,
      (p.vibrate = none →
        (loadSettings (.parsed p)).vibrate = defaultSettings.vibrate) ∧
      (∀ b, p.vibrate = some b → (loadSettings (.parsed p)).vibrate = b) ∧
      (p.vibrateMs = none →
        (loadSettings (.parsed p)).vibrateMs = defaultSettings.vibrateMs) ∧
      (∀ n, p.vibrateMs = some n → (loadSettings (.parsed p)).vibrateMs = n) ∧
      (p.autoResetAfterLog = none →
        (loadSettings (.parsed p)).autoResetAfterLog
          = defaultSettings.autoResetAfterLog) ∧
      (∀ b, p.autoResetAfterLog = some b →
        (loadSettings (.parsed p)).autoResetAfterLog = b) ∧
      (p.hapticsOnDecrement = none →
        (loadSettings (.parsed p)).hapticsOnDecrement
          = defaultSettings.hapticsOnDecrement) ∧
      (∀ b, p.hapticsOnDecrement = some b →
        (loadSettings (.parsed p)).hapticsOnDecrement = b)) := by
  refine ⟨⟨rfl, rfl, rfl⟩, ⟨rfl, rfl⟩, ?_⟩
  intro p
  refine ⟨fun hv => ?_, fun b hv => ?_, fun hv => ?_, fun n hv => ?_,
    fun hv => ?_, fun b hv => ?_, fun hv => ?_, fun b hv => ?_⟩ <;>
    simp [loadSettings, mergeSettings, hv]

/-- Witness for C7 on a blob that stores only `hapticsOnDecrement :=
true`: the stored field is preserved, the missing `vibrateMs` falls
back to its default `10`. -/
theorem load_fallbacks_witness :
    (loadSettings (.parsed
        ⟨none, none, none, some true⟩)).hapticsOnDecrement = true ∧
    (loadSettings (.parsed ⟨none, none, none, some true⟩)).vibrateMs = 10 :=
  ⟨(load_fallbacks.2.2 ⟨none, none, none, some true⟩).2.2.2.2.2.2.2
      true rfl,
   (load_fallbacks.2.2 ⟨none, none, none, some true⟩).2.2.1 rfl⟩

/-- **C8 counterexample.** The claim says every loaded tally is a
non-negative integer, with `0` substituted for anything that does not
encode a non-negative integer.  But `loadNumber` keeps any finite
parsed value: a stored `"-5"` is finite, so it is returned as `-5` —
negative, not the claimed fallback `0`. -/
theorem loadNumber_claim_counterexample :
    loadNumber (RawNum.numeric (-5)) 0 ≠ 0 ∧
    loadNumber (RawNum.numeric (-5)) 0 < 0 := by
  decide

/-- **C8 amended.** `loadNumber` yields the encoded value whenever
`Number(raw)` is finite — regardless of sign — and the fallback `0`
exactly for missing, empty, or non-numeric raws; hence the restored
tally is non-negative only under the extra assumption that the stored
finite value itself is non-negative (which holds for every value the
app writes, since the live tally is clamped at 0). -/
theorem loadNumber_spec (v : Int) (hv : 0 ≤ v) :
    loadNumber (RawNum.numeric v) 0 = v ∧
    (0 ≤ loadNumber (RawNum.numeric v) 0) ∧
    loadNumber .missing 0 = 0 ∧
    loadNumber .empty 0 = 0 ∧
    loadNumber .nonNumeric 0 = 0 :=
  ⟨rfl, hv, rfl, rfl, rfl⟩

/-- Witness for C8 (amended) at stored value `3`. -/
theorem loadNumber_spec_witness :
    loadNumber (RawNum.numeric 3) 0 = 3 ∧ 0 ≤ loadNumber (RawNum.numeric 3) 0 :=
  ⟨(loadNumber_spec 3 (by decide)).1, (loadNumber_spec 3 (by decide)).2.1⟩

/-! ## Hold-to-repeat controller (App.tsx lines 251-267)

```
function startHold(ref, fn) {
  fn() // immediate feedback
  ref.current.delay = window.setTimeout(() => {
    ref.current.repeat = window.setInterval(fn, 150)
  }, 300)
}
function stopHold(ref, fn) {
  if (ref.current.delay !== null) { clearTimeout(ref.current.delay);
    ref.current.delay = null }
  if (ref.current.repeat !== null) { clearInterval(ref.current.repeat);
    ref.current.repeat = null }
}
```

The JS timer runtime is modelled explicitly: `Sys.timers` is the set of
armed timers (`setTimeout` one-shots and `setInterval` periodic timers,
identified by the ids the runtime hands out), `Sys.hold` is the
component's `ref.current`, and `Sys.ticks` records each invocation of
the tick action `fn` with its time.  Time advances in whole
milliseconds; at each instant the user events delivered at that instant
run first, then every timer due at that instant fires once (a timer
cleared by `clearTimeout`/`clearInterval` is removed from `timers` and
can never fire — the JS guarantee).  The one-shot's callback is the
closure in `startHold` that arms the interval; note that it does not
reset `ref.current.delay`, exactly as in the source. -/

/-- What an armed timer's callback does when it fires. -/
inductive TAct where
  | armRepeat
  | tick
deriving DecidableEq

structure Timer where
  id : Nat
  fireAt : Nat
  period : Option Nat
  act : TAct
deriving DecidableEq

/-- `ref.current`: the stored `setTimeout` / `setInterval` handles
(`rep` is the source's `repeat` field). -/
structure RefState where
  delay : Option Nat
  rep : Option Nat
deriving DecidableEq

structure Sys where
  nextId : Nat
  timers : List Timer
  hold : RefState
  ticks : List Nat
deriving DecidableEq

def initSys : Sys := ⟨0, [], ⟨none, none⟩, []⟩

/-- `clearTimeout(i)` / `clearInterval(i)`: unconditionally safe, a
no-op when the timer already fired or never existed. -/
def clearTimer (i : Nat) (s : Sys) : Sys :=
  { s with timers := s.timers.filter (fun tm => tm.id ≠ i) }

/-- `startHold` at time `t`: one immediate tick, then arm the 300 ms
one-shot and store its id in `ref.current.delay` (overwriting whatever
was there, with no guard). -/
def startHold (t : Nat) (s : Sys) : Sys :=
  let s1 : Sys := { s with ticks := s.ticks ++ [t] }
  { s1 with
    nextId := s1.nextId + 1,
    timers := s1.timers ++ [⟨s1.nextId, t + 300, none, .armRepeat⟩],
    hold := { s1.hold with delay := some s1.nextId } }

/-- `stopHold`: clear and null the delay handle if stored, then clear
and null the repeat handle if stored.  Fires no tick. -/
def stopHold (s : Sys) : Sys :=
  let s1 : Sys :=
    match s.hold.delay with
    | some i =>
      let s' := clearTimer i s
      { s' with hold := { s'.hold with delay := none } }
    | none => s
  match s1.hold.rep with
  | some i =>
    let s' := clearTimer i s1
    { s' with hold := { s'.hold with rep := none } }
  | none => s1

/-- Firing an armed timer at time `t`.  A fired one-shot is removed by
the runtime and its callback (`startHold`'s closure) arms the 150 ms
interval, storing the new id in `ref.current.repeat`; a fired interval
runs `fn` (one tick) and is rescheduled 150 ms later. -/
def fireTimer (t : Nat) (s : Sys) (tm : Timer) : Sys :=
  match tm.act with
  | .armRepeat =>
    let s1 := clearTimer tm.id s
    { s1 with
      nextId := s1.nextId + 1,
      timers := s1.timers ++ [⟨s1.nextId, t + 150, some 150, .tick⟩],
      hold := { s1.hold with rep := some s1.nextId } }
  | .tick =>
    { s with
      ticks := s.ticks ++ [t],
      timers := s.timers.map
        (fun u => if u.id = tm.id then { u with fireAt := t + 150 } else u) }

/-- Fire every timer due at instant `t` once (collected by id first, so
a timer armed while firing — always scheduled strictly later — does not
fire at `t`). -/
def fireDue (t : Nat) (s : Sys) : Sys :=
  ((s.timers.filter (fun tm => tm.fireAt ≤ t)).map Timer.id).foldl
    (fun s1 i =>
      match s1.timers.find? (fun tm => tm.id = i) with
      | some tm => if tm.fireAt ≤ t then fireTimer t s1 tm else s1
      | none => s1) s

/-- User gestures: `pointerdown` runs `startHold`, `pointerup` /
`pointerleave` / `pointercancel` run `stopHold`. -/
inductive UEv where
  | press
  | release
deriving DecidableEq

def applyUEv (t : Nat) (s : Sys) : UEv → Sys
  | .press => startHold t s
  | .release => stopHold s

/-- One instant of the event loop: deliver the user events of instant
`t` in order, then fire the due timers. -/
def stepTime (evs : Nat → List UEv) (t : Nat) (s : Sys) : Sys :=
  fireDue t ((evs t).foldl (applyUEv t) s)

/-- Run the event loop through instants `0, 1, …, t`. -/
def run (evs : Nat → List UEv) : Nat → Sys
  | 0 => stepTime evs 0 initSys
  | t + 1 => stepTime evs (t + 1) (run evs t)

/-- A single press at `P` released at `R`. -/
def pressRelease (P R : Nat) : Nat → List UEv := fun t =>
  if t = P then [.press] else if t = R then [.release] else []

/-- The tick times the controller is claimed to produce for a press at
`P` released at `R`: one tick at press-start, and — once the 300 ms
delay has elapsed — one tick each 150 ms (`P + 450`, `P + 600`, …)
strictly before the release. -/
def tickTimes (P R : Nat) : List Nat :=
  P :: (List.range R).filter
    (fun u => P + 450 ≤ u ∧ (u - (P + 300)) % 150 = 0)

set_option maxRecDepth 4000

/-- Next scheduled firing time of the repeat interval while it is
armed: the interval is created at `P + 300` firing first at `P + 450`,
and advances by 150 ms at each firing. -/
def repFireAt (P t : Nat) : Nat := P + 450 + 150 * ((t - (P + 300)) / 150)

/-- The ticks produced through instant `t` of a press at `P` still held:
the immediate one plus every interval firing so far. -/
def ticksUpTo (P t : Nat) : List Nat :=
  P :: (List.range (t + 1)).filter
    (fun u => P + 450 ≤ u ∧ (u - (P + 300)) % 150 = 0)

/-- The exact state of the runtime and the component at every instant
of a press-at-`P`, release-at-`R` interaction. -/
def stateAt (P R t : Nat) : Sys :=
  if t < P then initSys
  else if t < R ∧ t < P + 300 then
    ⟨1, [⟨0, P + 300, none, .armRepeat⟩], ⟨some 0, none⟩, [P]⟩
  else if R ≤ P + 300 then ⟨1, [], ⟨none, none⟩, [P]⟩
  else if t < R then
    ⟨2, [⟨1, repFireAt P t, some 150, .tick⟩], ⟨some 0, some 1⟩,
      ticksUpTo P t⟩
  else ⟨2, [], ⟨none, none⟩, tickTimes P R⟩

theorem fireDue_no_timers (t : Nat) (s : Sys) (h : s.timers = []) :
    fireDue t s = s := by
  simp [fireDue, h]

theorem fireDue_not_due (t : Nat) (s : Sys)
    (h : ∀ tm ∈ s.timers, t < tm.fireAt) : fireDue t s = s := by
  unfold fireDue
  have hf : s.timers.filter (fun tm => tm.fireAt ≤ t) = [] := by
    rw [List.filter_eq_nil_iff]
    intro tm hm
    simpa using h tm hm
  rw [hf]
  rfl

theorem ticksUpTo_base (P : Nat) : ticksUpTo P (P + 300) = [P] := by
  unfold ticksUpTo
  have hf : (List.range (P + 300 + 1)).filter
      (fun u => P + 450 ≤ u ∧ (u - (P + 300)) % 150 = 0) = [] := by
    rw [List.filter_eq_nil_iff]
    intro u hu
    rw [List.mem_range] at hu
    simp only [decide_eq_true_eq, not_and]
    intro hle
    omega
  rw [hf]

theorem ticksUpTo_succ_hit (P t : Nat) (h1 : P + 450 ≤ t + 1)
    (h2 : (t + 1 - (P + 300)) % 150 = 0) :
    ticksUpTo P (t + 1) = ticksUpTo P t ++ [t + 1] := by
  unfold ticksUpTo
  rw [List.range_succ, List.filter_append]
  have hd : (decide (P + 450 ≤ t + 1 ∧ (t + 1 - (P + 300)) % 150 = 0))
      = true := decide_eq_true ⟨h1, h2⟩
  have hsingle : List.filter
      (fun u => decide (P + 450 ≤ u ∧ (u - (P + 300)) % 150 = 0)) [t + 1]
      = [t + 1] := by
    simp only [List.filter]
    rw [hd]
  rw [hsingle, List.cons_append]

theorem ticksUpTo_succ_miss (P t : Nat)
    (h : ¬ (P + 450 ≤ t + 1 ∧ (t + 1 - (P + 300)) % 150 = 0)) :
    ticksUpTo P (t + 1) = ticksUpTo P t := by
  unfold ticksUpTo
  rw [List.range_succ, List.filter_append]
  have hd : (decide (P + 450 ≤ t + 1 ∧ (t + 1 - (P + 300)) % 150 = 0))
      = false := decide_eq_false h
  have hsingle : List.filter
      (fun u => decide (P + 450 ≤ u ∧ (u - (P + 300)) % 150 = 0)) [t + 1]
      = [] := by
    simp only [List.filter]
    rw [hd]
  rw [hsingle, List.append_nil]

theorem tickTimes_eq_ticksUpTo (P R : Nat) (hR : 1 ≤ R) :
    tickTimes P R = ticksUpTo P (R - 1) := by
  have hr : R - 1 + 1 = R := by omega
  unfold tickTimes ticksUpTo
  rw [hr]

theorem tickTimes_short (P R : Nat) (hR : R ≤ P + 450) :
    tickTimes P R = [P] := by
  unfold tickTimes
  have hf : (List.range R).filter
      (fun u => P + 450 ≤ u ∧ (u - (P + 300)) % 150 = 0) = [] := by
    rw [List.filter_eq_nil_iff]
    intro u hu
    rw [List.mem_range] at hu
    simp only [decide_eq_true_eq, not_and]
    intro hle
    omega
  rw [hf]

theorem stateAt_idle (P R t : Nat) (h : t < P) : stateAt P R t = initSys := by
  unfold stateAt
  rw [if_pos h]

theorem stateAt_armed (P R t : Nat) (h1 : ¬ t < P) (h2 : t < R)
    (h3 : t < P + 300) :
    stateAt P R t
      = ⟨1, [⟨0, P + 300, none, .armRepeat⟩], ⟨some 0, none⟩, [P]⟩ := by
  unfold stateAt
  rw [if_neg h1, if_pos ⟨h2, h3⟩]

theorem stateAt_shortDone (P R t : Nat) (h1 : ¬ t < P)
    (h2 : ¬ (t < R ∧ t < P + 300)) (h3 : R ≤ P + 300) :
    stateAt P R t = ⟨1, [], ⟨none, none⟩, [P]⟩ := by
  unfold stateAt
  rw [if_neg h1, if_neg h2, if_pos h3]

theorem stateAt_repeating (P R t : Nat) (h1 : ¬ t < P)
    (h2 : ¬ (t < R ∧ t < P + 300)) (h3 : ¬ R ≤ P + 300) (h4 : t < R) :
    stateAt P R t
      = ⟨2, [⟨1, repFireAt P t, some 150, .tick⟩], ⟨some 0, some 1⟩,
          ticksUpTo P t⟩ := by
  unfold stateAt
  rw [if_neg h1, if_neg h2, if_neg h3, if_pos h4]

theorem stateAt_longDone (P R t : Nat) (h1 : ¬ t < P)
    (h2 : ¬ (t < R ∧ t < P + 300)) (h3 : ¬ R ≤ P + 300) (h4 : ¬ t < R) :
    stateAt P R t = ⟨2, [], ⟨none, none⟩, tickTimes P R⟩ := by
  unfold stateAt
  rw [if_neg h1, if_neg h2, if_neg h3, if_neg h4]

theorem run_succ (evs : Nat → List UEv) (t : Nat) :
    run evs (t + 1) = stepTime evs (t + 1) (run evs t) := rfl

theorem stepTime_quiet (evs : Nat → List UEv) (t : Nat) (s : Sys)
    (hev : evs t = []) (hd : ∀ tm ∈ s.timers, t < tm.fireAt) :
    stepTime evs t s = s := by
  rw [stepTime, hev]
  exact fireDue_not_due t s hd

theorem fireDue_armRepeat_fires (t n i fa : Nat) (hold : RefState)
    (tks : List Nat) (hfa : fa ≤ t) :
    fireDue t ⟨n, [⟨i, fa, none, .armRepeat⟩], hold, tks⟩
      = ⟨n + 1, [⟨n, t + 150, some 150, .tick⟩], ⟨hold.delay, some n⟩,
          tks⟩ := by
  unfold fireDue
  simp [List.filter, List.find?, List.foldl, hfa, fireTimer, clearTimer]

theorem fireDue_tick_fires (t n i fa p : Nat) (hold : RefState)
    (tks : List Nat) (hfa : fa ≤ t) :
    fireDue t ⟨n, [⟨i, fa, some p, .tick⟩], hold, tks⟩
      = ⟨n, [⟨i, t + 150, some p, .tick⟩], hold, tks ++ [t]⟩ := by
  unfold fireDue
  simp [List.filter, List.find?, List.foldl, hfa, fireTimer, clearTimer]

theorem run_zero (evs : Nat → List UEv) :
    run evs 0 = stepTime evs 0 initSys := rfl

/-- The state of the press-at-`P`, release-at-`R` interaction is
`stateAt P R t` at every instant `t`. -/
theorem run_pressRelease (P R : Nat) (hPR : P < R) :
    ∀ t : Nat, run (pressRelease P R) t = stateAt P R t := by
  intro t
  induction t with
  | zero =>
    rw [run_zero]
    by_cases hP : P = 0
    · subst hP
      have hev : pressRelease 0 R 0 = [UEv.press] := by simp [pressRelease]
      rw [stepTime, hev]
      have hfold : List.foldl (applyUEv 0) initSys [UEv.press]
          = ⟨1, [⟨0, 0 + 300, none, .armRepeat⟩], ⟨some 0, none⟩, [0]⟩ := rfl
      rw [hfold]
      rw [fireDue_not_due 0
        ⟨1, [⟨0, 0 + 300, none, .armRepeat⟩], ⟨some 0, none⟩, [0]⟩
        (by intro tm hm; simp at hm; subst hm; simp)]
      rw [stateAt_armed 0 R 0 (by omega) (by omega) (by omega)]
    · rw [stateAt_idle P R 0 (by omega)]
      exact stepTime_quiet _ 0 _
        (by
          have hp : ¬ (0 = P) := by omega
          have hr : ¬ (0 = R) := by omega
          simp [pressRelease, hp, hr])
        (by intro tm hm; simp [initSys] at hm)
  | succ t ih =>
    rw [run_succ, ih]
    by_cases h1 : t + 1 < P
    · rw [stateAt_idle P R t (by omega), stateAt_idle P R (t + 1) h1]
      exact stepTime_quiet _ _ _
        (by
          have hp : ¬ (t + 1 = P) := by omega
          have hr : ¬ (t + 1 = R) := by omega
          simp [pressRelease, hp, hr])
        (by intro tm hm; simp [initSys] at hm)
    · by_cases h2 : t + 1 = P
      · rw [stateAt_idle P R t (by omega)]
        have hev : pressRelease P R (t + 1) = [UEv.press] := by
          simp [pressRelease, h2]
        rw [stepTime, hev]
        have hfold : List.foldl (applyUEv (t + 1)) initSys [UEv.press]
            = ⟨1, [⟨0, (t + 1) + 300, none, .armRepeat⟩], ⟨some 0, none⟩,
                [t + 1]⟩ := rfl
        rw [hfold]
        rw [fireDue_not_due (t + 1)
          ⟨1, [⟨0, (t + 1) + 300, none, .armRepeat⟩], ⟨some 0, none⟩, [t + 1]⟩
          (by intro tm hm; simp at hm; subst hm; simp)]
        rw [stateAt_armed P R (t + 1) (by omega) (by omega) (by omega)]
        rw [h2]
      · by_cases h3 : t + 1 < R ∧ t + 1 < P + 300
        · rw [stateAt_armed P R t (by omega) (by omega) (by omega),
              stateAt_armed P R (t + 1) (by omega) h3.1 h3.2]
          exact stepTime_quiet _ _ _
            (by
              have hp : ¬ (t + 1 = P) := by omega
              have hr : ¬ (t + 1 = R) := by omega
              simp [pressRelease, hp, hr])
            (by intro tm hm; simp at hm; subst hm; simp; omega)
        · by_cases h4 : t + 1 = R
          · by_cases h5 : R ≤ P + 300
            · rw [stateAt_armed P R t (by omega) (by omega) (by omega)]
              have hev : pressRelease P R (t + 1) = [UEv.release] := by
                have hp : ¬ (t + 1 = P) := by omega
                have hrp : ¬ (R = P) := by omega
                simp [pressRelease, hp, hrp, h4]
              rw [stepTime, hev]
              have hfold : List.foldl (applyUEv (t + 1))
                  ⟨1, [⟨0, P + 300, none, .armRepeat⟩], ⟨some 0, none⟩, [P]⟩
                  [UEv.release]
                  = ⟨1, [], ⟨none, none⟩, [P]⟩ := rfl
              rw [hfold, fireDue_no_timers _ _ rfl]
              rw [stateAt_shortDone P R (t + 1) (by omega) (by omega) h5]
            · rw [stateAt_repeating P R t (by omega) (by omega) h5 (by omega)]
              have hev : pressRelease P R (t + 1) = [UEv.release] := by
                have hp : ¬ (t + 1 = P) := by omega
                have hrp : ¬ (R = P) := by omega
                simp [pressRelease, hp, hrp, h4]
              rw [stepTime, hev]
              have hfold : List.foldl (applyUEv (t + 1))
                  ⟨2, [⟨1, repFireAt P t, some 150, .tick⟩], ⟨some 0, some 1⟩,
                    ticksUpTo P t⟩ [UEv.release]
                  = ⟨2, [], ⟨none, none⟩, ticksUpTo P t⟩ := rfl
              rw [hfold, fireDue_no_timers _ _ rfl]
              rw [stateAt_longDone P R (t + 1) (by omega) (by omega) h5
                (by omega)]
              rw [tickTimes_eq_ticksUpTo P R (by omega)]
              have hT : R - 1 = t := by omega
              rw [hT]
          · by_cases h6 : t + 1 = P + 300
            · by_cases h7 : t + 1 < R
              · rw [stateAt_armed P R t (by omega) (by omega) (by omega)]
                have hev : pressRelease P R (t + 1) = [] := by
                  have hp : ¬ (t + 1 = P) := by omega
                  simp [pressRelease, hp, h4]
                rw [stepTime, hev]
                simp only [List.foldl_nil]
                rw [fireDue_armRepeat_fires (t + 1) 1 0 (P + 300)
                  ⟨some 0, none⟩ [P] (by omega)]
                rw [stateAt_repeating P R (t + 1) (by omega) (by omega)
                  (by omega) h7]
                have hfa : repFireAt P (t + 1) = t + 1 + 150 := by
                  unfold repFireAt; omega
                have htk : ticksUpTo P (t + 1) = [P] := by
                  rw [h6]; exact ticksUpTo_base P
                rw [hfa, htk]
              · rw [stateAt_shortDone P R t (by omega) (by omega) (by omega),
                    stateAt_shortDone P R (t + 1) (by omega) (by omega)
                      (by omega)]
                exact stepTime_quiet _ _ _
                  (by
                    have hp : ¬ (t + 1 = P) := by omega
                    simp [pressRelease, hp, h4])
                  (by intro tm hm; simp at hm)
            · by_cases h7 : t + 1 < R
              · have hgt : P + 300 < t + 1 := by omega
                rw [stateAt_repeating P R t (by omega) (by omega) (by omega)
                  (by omega)]
                have hev : pressRelease P R (t + 1) = [] := by
                  have hp : ¬ (t + 1 = P) := by omega
                  simp [pressRelease, hp, h4]
                rw [stepTime, hev]
                simp only [List.foldl_nil]
                by_cases h8 : (t + 1 - (P + 300)) % 150 = 0
                · have hfa_eq : repFireAt P t = t + 1 := by
                    unfold repFireAt; omega
                  rw [fireDue_tick_fires (t + 1) 2 1 (repFireAt P t) 150
                    ⟨some 0, some 1⟩ (ticksUpTo P t) (by omega)]
                  rw [stateAt_repeating P R (t + 1) (by omega) (by omega)
                    (by omega) h7]
                  have h450 : P + 450 ≤ t + 1 := by omega
                  rw [ticksUpTo_succ_hit P t h450 h8]
                  have hfa2 : repFireAt P (t + 1) = t + 1 + 150 := by
                    unfold repFireAt; omega
                  rw [hfa2]
                · have hnd : t + 1 < repFireAt P t := by
                    unfold repFireAt; omega
                  rw [fireDue_not_due (t + 1)
                    ⟨2, [⟨1, repFireAt P t, some 150, .tick⟩],
                      ⟨some 0, some 1⟩, ticksUpTo P t⟩
                    (by intro tm hm; simp at hm; subst hm; simpa using hnd)]
                  rw [stateAt_repeating P R (t + 1) (by omega) (by omega)
                    (by omega) h7]
                  have hfa : repFireAt P (t + 1) = repFireAt P t := by
                    unfold repFireAt; omega
                  rw [ticksUpTo_succ_miss P t (fun hc => h8 hc.2), hfa]
              · by_cases h9 : R ≤ P + 300
                · rw [stateAt_shortDone P R t (by omega) (by omega) h9,
                      stateAt_shortDone P R (t + 1) (by omega) (by omega) h9]
                  exact stepTime_quiet _ _ _
                    (by
                      have hp : ¬ (t + 1 = P) := by omega
                      simp [pressRelease, hp, h4])
                    (by intro tm hm; simp at hm)
                · rw [stateAt_longDone P R t (by omega) (by omega) h9
                      (by omega),
                    stateAt_longDone P R (t + 1) (by omega) (by omega) h9
                      (by omega)]
                  exact stepTime_quiet _ _ _
                    (by
                      have hp : ¬ (t + 1 = P) := by omega
                      simp [pressRelease, hp, h4])
                    (by intro tm hm; simp at hm)

/-- **C3.** For every press/release timing (press at `P`, release at
`R > P`, observed at any horizon `T ≥ R`): the ticks are exactly
`tickTimes P R` — one tick at press-start `P`, and, only when the press
outlived the 300 ms delay, one tick every 150 ms (`P + 450`,
`P + 600`, …) strictly until release.  In particular a release before
`P + 300` yields exactly the single press-start tick.  Release fires no
further tick, clears every armed timer and both stored handles, and the
state never changes after `R` — so no timer firing can be delivered
after release at all (the cancelled-timer no-op guarantee). -/
theorem holdController_ticks (P R T : Nat) (hPR : P < R) (hRT : R ≤ T) :
    (run (pressRelease P R) T).ticks = tickTimes P R ∧
    (R < P + 300 → (run (pressRelease P R) T).ticks = [P]) ∧
    (run (pressRelease P R) T).timers = [] ∧
    (run (pressRelease P R) T).hold = ⟨none, none⟩ ∧
    run (pressRelease P R) T = run (pressRelease P R) R := by
  have hT := run_pressRelease P R hPR T
  have hR := run_pressRelease P R hPR R
  by_cases h5 : R ≤ P + 300
  · have hsT : stateAt P R T = ⟨1, [], ⟨none, none⟩, [P]⟩ :=
      stateAt_shortDone P R T (by omega) (by omega) h5
    have hsR : stateAt P R R = ⟨1, [], ⟨none, none⟩, [P]⟩ :=
      stateAt_shortDone P R R (by omega) (by omega) h5
    rw [hT, hsT]
    exact ⟨(tickTimes_short P R (by omega)).symm, fun _ => rfl, rfl, rfl,
      by rw [hR, hsR]⟩
  · have hsT : stateAt P R T = ⟨2, [], ⟨none, none⟩, tickTimes P R⟩ :=
      stateAt_longDone P R T (by omega) (by omega) h5 (by omega)
    have hsR : stateAt P R R = ⟨2, [], ⟨none, none⟩, tickTimes P R⟩ :=
      stateAt_longDone P R R (by omega) (by omega) h5 (by omega)
    rw [hT, hsT]
    exact ⟨rfl, fun hc => absurd hc (by omega), rfl, rfl, by rw [hR, hsR]⟩

/-- Witness for C3: press at 0, released at 100 (before the 300 ms
delay), observed at 100 — exactly one tick, fired at press-start. -/
theorem holdController_ticks_witness :
    (run (pressRelease 0 100) 100).ticks = tickTimes 0 100 ∧
    (run (pressRelease 0 100) 100).ticks = [0] ∧
    (run (pressRelease 0 100) 100).timers = [] := by
  have h := holdController_ticks 0 100 100 (by decide) (by decide)
  exact ⟨h.1, h.2.1 (by decide), h.2.2.1⟩

/-! ## C4: reentrant press while armed (no guard in the source) -/

/-- Two presses on the same button (multi-touch: a second `pointerdown`
before any release) at 0 ms and 100 ms, released at 200 ms. -/
def doublePressEvs : Nat → List UEv := fun t =>
  if t = 0 then [.press]
  else if t = 100 then [.press]
  else if t = 200 then [.release] else []

/-- Once no further user events arrive and no armed timer is due before
`b`, the state stays frozen. -/
theorem run_stable (evs : Nat → List UEv) (a : Nat) :
    ∀ b : Nat, a ≤ b →
      (∀ u : Nat, a < u → u ≤ b → evs u = []) →
      (∀ tm ∈ (run evs a).timers, b < tm.fireAt) →
      run evs b = run evs a := by
  intro b
  induction b with
  | zero =>
    intro hab _ _
    have h0 : a = 0 := by omega
    rw [h0]
  | succ b ihb =>
    intro hab hev htm
    by_cases hab2 : a = b + 1
    · rw [hab2]
    · have hrun : run evs b = run evs a :=
        ihb (by omega) (fun u hu1 hu2 => hev u hu1 (by omega))
          (fun tm hm => by have := htm tm hm; omega)
      rw [run_succ, hrun]
      exact stepTime_quiet evs (b + 1) (run evs a)
        (hev (b + 1) (by omega) (by omega)) (fun tm hm => htm tm hm)

/-- **C4 (bug demonstration).** `startHold` has no guard: a second
press while the delay timer is armed registers a second 300 ms one-shot
and overwrites `ref.current.delay` with the new id, leaking the first
timer.  After the release at 200 ms clears the stored handles, the
leaked one-shot still fires at 300 ms and arms a repeat interval that
no longer has any owner: a tick fires at 450 ms — after release — and
the interval stays armed forever. -/
theorem startHold_double_registration :
    (run doublePressEvs 100).timers
      = [⟨0, 300, none, .armRepeat⟩, ⟨1, 400, none, .armRepeat⟩] ∧
    (run doublePressEvs 100).hold.delay = some 1 ∧
    (run doublePressEvs 310).timers = [⟨2, 450, some 150, .tick⟩] ∧
    (run doublePressEvs 450).ticks = [0, 100, 450] ∧
    (run doublePressEvs 450).timers ≠ [] := by
  have h310 : run doublePressEvs 310
      = ⟨3, [⟨2, 450, some 150, .tick⟩], ⟨none, some 2⟩, [0, 100]⟩ := by
    decide
  have h449 : run doublePressEvs 449 = run doublePressEvs 310 := by
    refine run_stable doublePressEvs 310 449 (by omega) ?_ ?_
    · intro u hu1 hu2
      have h0 : ¬ (u = 0) := by omega
      have h100 : ¬ (u = 100) := by omega
      have h200 : ¬ (u = 200) := by omega
      simp [doublePressEvs, h0, h100, h200]
    · intro tm hm
      rw [h310] at hm
      simp at hm
      subst hm
      simp
  have h450 : run doublePressEvs 450
      = ⟨3, [⟨2, 600, some 150, .tick⟩], ⟨none, some 2⟩, [0, 100, 450]⟩ := by
    have hss : run doublePressEvs 450
        = stepTime doublePressEvs 450 (run doublePressEvs 449) := rfl
    rw [hss, h449, h310, stepTime]
    have hev : doublePressEvs 450 = [] := by decide
    rw [hev]
    simp only [List.foldl_nil]
    rw [fireDue_tick_fires 450 3 2 450 150 ⟨none, some 2⟩ [0, 100]
      (by omega)]
    decide
  exact ⟨by decide, by decide, by rw [h310], by rw [h450],
    by rw [h450]; simp⟩

end PrayerCounter
